import Mathlib

/-!
Shallow embedding of the toy-bank transaction engine.

Sources embedded here:
- src/fixedpoint.rs : the fixed-point decimal codec (string_to_fixed_point,
  fixed_point_to_string).
- src/bank.rs : the ledger state machine (BankDatabase, execute_transaction).
- src/transactions.rs : the Transaction record types.

Modelling conventions:
- Rust i64 values are modelled as Lean Int.  An i64 overflow or an .expect
  failure is a Rust panic; panicking paths are modelled by returning none,
  so every fallible operation lives in Option.
- Rust HashMap/BTreeMap/HashSet keyed by integer ids are modelled as
  functions Nat -> Option _ and Nat -> Bool.
- Rust str::parse for i64 (optional sign, decimal digits, range check), the
  Display rendering of i64, and str::split are translated as explicit
  executable Lean functions over lists of characters.
- The format directive in fixed_point_to_string is the literal one from the
  source, namely fill character 4, right alignment, width 0: it performs no
  padding, so the fractional component is rendered as a plain decimal
  number.  The repository's own unit tests pin this behaviour
  (fixed_point_to_string(10000) == "1.0").
-/

/-- TransactionType from src/transactions.rs. -/
inductive TransactionType where
  | DEPOSIT
  | WITHDRAWAL
  | DISPUTE
  | RESOLVE
  | CHARGEBACK
deriving DecidableEq

/-- Transaction from src/transactions.rs (r#type, client : u16, amount : i64). -/
structure Transaction where
  type : TransactionType
  client : Nat
  amount : Int
deriving DecidableEq

/-- Account from src/bank.rs. -/
structure Account where
  available_funds : Int
  held_funds : Int
  locked : Bool
deriving DecidableEq

/-- The derived Default for Account: funds all zeroed and not locked. -/
def Account.default : Account := ⟨0, 0, false⟩

/-- Account::get_total_funds from src/bank.rs. -/
def Account.get_total_funds (a : Account) : Int := a.available_funds + a.held_funds

/-- DepositRecord from src/bank.rs. -/
structure DepositRecord where
  client : Nat
  amount : Int
deriving DecidableEq

/-- BankDatabase from src/bank.rs: accounts (HashMap u16 Account),
deposits (BTreeMap u32 DepositRecord), disputes (HashSet u32). -/
structure BankDatabase where
  accounts : Nat → Option Account
  deposits : Nat → Option DepositRecord
  disputes : Nat → Bool

/-- The derived Default for BankDatabase: all three collections empty. -/
def BankDatabase.default : BankDatabase := ⟨fun _ => none, fun _ => none, fun _ => false⟩

/-- Map insert (HashMap::insert / BTreeMap::insert: overwrites any old value). -/
def mapInsert {α : Type} (m : Nat → Option α) (k : Nat) (v : α) : Nat → Option α :=
  fun x => if x = k then some v else m x

/-- accounts.entry(c).or_default(): keep an existing account, insert the
default account otherwise. -/
def ensureAccount (m : Nat → Option Account) (c : Nat) : Nat → Option Account :=
  fun x => if x = c then some ((m c).getD Account.default) else m x

/-- BankDatabase::execute_transaction from src/bank.rs.  Rust panics (the
.expect calls on deposits.get / accounts.get_mut) are modelled as none.
Early return statements skip the trailing
self.accounts.entry(transaction.client).or_default() line; fall-through
paths apply it via ensureAccount. -/
def BankDatabase.execute_transaction (db : BankDatabase) (transaction_id : Nat)
    (transaction : Transaction) : Option BankDatabase :=
  match transaction.type with
  | .DEPOSIT =>
    let acct := (db.accounts transaction.client).getD Account.default
    let db' : BankDatabase :=
      { db with
        accounts := mapInsert db.accounts transaction.client
          { acct with available_funds := acct.available_funds + transaction.amount },
        deposits := mapInsert db.deposits transaction_id
          ⟨transaction.client, transaction.amount⟩ }
    some { db' with accounts := ensureAccount db'.accounts transaction.client }
  | .WITHDRAWAL =>
    let acct := (db.accounts transaction.client).getD Account.default
    let dbIns : BankDatabase :=
      { db with accounts := mapInsert db.accounts transaction.client acct }
    if acct.locked then
      some dbIns
    else if acct.available_funds < transaction.amount then
      some dbIns
    else
      let db' : BankDatabase :=
        { dbIns with
          accounts := mapInsert dbIns.accounts transaction.client
            { acct with available_funds := acct.available_funds - transaction.amount } }
      some { db' with accounts := ensureAccount db'.accounts transaction.client }
  | .DISPUTE =>
    if db.disputes transaction_id then
      some db
    else
      match db.deposits transaction_id with
      | some disputed_deposit =>
        match db.accounts disputed_deposit.client with
        | some deposit_account =>
          let db' : BankDatabase :=
            { db with
              accounts := mapInsert db.accounts disputed_deposit.client
                { deposit_account with
                  available_funds := deposit_account.available_funds - disputed_deposit.amount,
                  held_funds := deposit_account.held_funds + disputed_deposit.amount },
              disputes := fun x => if x = transaction_id then true else db.disputes x }
          some { db' with accounts := ensureAccount db'.accounts transaction.client }
        | none => none
      | none =>
        some { db with accounts := ensureAccount db.accounts transaction.client }
  | .RESOLVE =>
    if !(db.disputes transaction_id) then
      some db
    else
      match db.deposits transaction_id with
      | none => none
      | some disputed_deposit =>
        match db.accounts disputed_deposit.client with
        | none => none
        | some deposit_account =>
          let db' : BankDatabase :=
            { db with
              accounts := mapInsert db.accounts disputed_deposit.client
                { deposit_account with
                  held_funds := deposit_account.held_funds - disputed_deposit.amount,
                  available_funds := deposit_account.available_funds + disputed_deposit.amount },
              disputes := fun x => if x = transaction_id then false else db.disputes x }
          some { db' with accounts := ensureAccount db'.accounts transaction.client }
  | .CHARGEBACK =>
    if !(db.disputes transaction_id) then
      some db
    else
      match db.deposits transaction_id with
      | none => none
      | some disputed_deposit =>
        match db.accounts disputed_deposit.client with
        | none => none
        | some deposit_account =>
          let db' : BankDatabase :=
            { db with
              accounts := mapInsert db.accounts disputed_deposit.client
                { deposit_account with
                  held_funds := deposit_account.held_funds - disputed_deposit.amount,
                  locked := true },
              disputes := fun x => if x = transaction_id then false else db.disputes x }
          some { db' with accounts := ensureAccount db'.accounts transaction.client }

/-- The main loop of src/main.rs: execute a list of (tx id, transaction)
pairs in input order; none if any step panics. -/
def runTransactions (db : BankDatabase) : List (Nat × Transaction) → Option BankDatabase
  | [] => some db
  | t :: rest =>
    match db.execute_transaction t.1 t.2 with
    | some db' => runTransactions db' rest
    | none => none

/-- Available funds of a client, reading a missing account as the default
(all-zero) account. -/
def BankDatabase.availableOf (db : BankDatabase) (c : Nat) : Int :=
  ((db.accounts c).getD Account.default).available_funds

/-- Held funds of a client, reading a missing account as the default. -/
def BankDatabase.heldOf (db : BankDatabase) (c : Nat) : Int :=
  ((db.accounts c).getD Account.default).held_funds

/-- Locked flag of a client, reading a missing account as the default. -/
def BankDatabase.lockedOf (db : BankDatabase) (c : Nat) : Bool :=
  ((db.accounts c).getD Account.default).locked

/-- All balances (available, held, locked) agree between two states. -/
def SameBalances (db db' : BankDatabase) : Prop :=
  ∀ c, db'.availableOf c = db.availableOf c ∧ db'.heldOf c = db.heldOf c ∧
    db'.lockedOf c = db.lockedOf c

/-- The internal consistency invariant of BankDatabase: every disputed
transaction id has a deposit record and every deposit record's client has an
account.  These are exactly the facts the .expect calls of
execute_transaction rely on. -/
def WellFormed (db : BankDatabase) : Prop :=
  (∀ t, db.disputes t = true → ∃ r, db.deposits t = some r) ∧
  (∀ t r, db.deposits t = some r → ∃ a, db.accounts r.client = some a)

/-! ### Fixed-point codec (src/fixedpoint.rs) -/

/-- FIXED_POINT_MAGNITUDE from src/fixedpoint.rs. -/
def FIXED_POINT_MAGNITUDE : Int := 10000

/-- EXPECTED_PRECISION from src/fixedpoint.rs. -/
def EXPECTED_PRECISION : Nat := 4

/-- i64::MIN. -/
def i64Min : Int := -(2 ^ 63)

/-- i64::MAX. -/
def i64Max : Int := 2 ^ 63 - 1

/-- An ASCII decimal digit, as consumed by Rust integer parsing. -/
def charToDigit? (c : Char) : Option Nat :=
  if 48 ≤ c.toNat ∧ c.toNat ≤ 57 then some (c.toNat - 48) else none

/-- Digit accumulation loop of Rust integer parsing. -/
def parseDigitsAux : List Char → Nat → Option Nat
  | [], acc => some acc
  | c :: cs, acc =>
    match charToDigit? c with
    | some d => parseDigitsAux cs (acc * 10 + d)
    | none => none

/-- Rust digit-string parsing: at least one digit, all characters digits. -/
def parseDigits? : List Char → Option Nat
  | [] => none
  | cs => parseDigitsAux cs 0

/-- str::parse for i64: an optional plus or minus sign, then one or more
decimal digits, with the i64 range check. -/
def parseI64Chars (cs : List Char) : Option Int :=
  let signSplit : Bool × List Char :=
    match cs with
    | c :: rest =>
      if c = '-' then (true, rest)
      else if c = '+' then (false, rest)
      else (false, cs)
    | [] => (false, cs)
  match parseDigits? signSplit.2 with
  | none => none
  | some n =>
    let value : Int := if signSplit.1 then -(n : Int) else (n : Int)
    if value < i64Min ∨ i64Max < value then none else some value

/-- str::split on the dot character, as used by string_to_fixed_point. -/
def splitOnDot : List Char → List (List Char)
  | [] => [[]]
  | c :: cs =>
    if c = '.' then [] :: splitOnDot cs
    else
      match splitOnDot cs with
      | [] => [[c]]
      | p :: ps => (c :: p) :: ps

/-- string_to_fixed_point from src/fixedpoint.rs.  The two .expect calls
(panic on a non-numeric component) and the debug-build i64 overflow aborts
are modelled as none; recoverable Err values are Except.error. -/
def string_to_fixed_point (s : String) : Option (Except String Int) :=
  match splitOnDot s.data with
  | [units_part, frac_part] =>
    match parseI64Chars units_part with
    | none => none
    | some units =>
      if units < 0 then some (.error "Invalid amount: negative")
      else
        let digits := frac_part.length
        if digits > EXPECTED_PRECISION then
          some (.error "Provided amount exceeds asserted 4 digits past point fixed point precision")
        else
          let decimal_multiplier : Int := 10 ^ (EXPECTED_PRECISION - digits)
          match parseI64Chars frac_part with
          | none => none
          | some raw_frac =>
            let ten_thousandths := raw_frac * decimal_multiplier
            if ten_thousandths < i64Min ∨ i64Max < ten_thousandths then none
            else
              let result := units * FIXED_POINT_MAGNITUDE + ten_thousandths
              if result < i64Min ∨ i64Max < result then none
              else some (.ok result)
  | _ => some (.error "Amount contains more than one dot or less than one dot")

/-- Fuel-driven decimal rendering loop (the digit loop of Rust's integer
Display); fuel larger than the value suffices. -/
def natToCharsCore : Nat → Nat → List Char → List Char
  | 0, _, acc => acc
  | fuel + 1, n, acc =>
    if n < 10 then Char.ofNat (48 + n) :: acc
    else natToCharsCore fuel (n / 10) (Char.ofNat (48 + n % 10) :: acc)

/-- Decimal rendering of a natural number (Rust Display for unsigned
values): most significant digit first, no leading zeros, 0 renders "0". -/
def natToChars (n : Nat) : List Char := natToCharsCore (n + 1) n []

/-- Rust Display for i64: minus sign followed by the decimal digits of the
absolute value for negatives, plain digits otherwise. -/
def intToChars (v : Int) : List Char :=
  if v < 0 then '-' :: natToChars v.natAbs else natToChars v.natAbs

/-- fixed_point_to_string from src/fixedpoint.rs: the format directive is
fill-with-4 / right-align / width 0, which performs no padding, so both
components are rendered as plain decimal numbers.  Division is Rust's
truncating i64 division. -/
def fixed_point_to_string (fixed_point : Int) : String :=
  String.mk (intToChars (fixed_point.tdiv FIXED_POINT_MAGNITUDE) ++
    '.' :: natToChars (fixed_point.natAbs % 10000))

/-! ### Concrete fixtures used by witnesses and counterexamples -/

/-- A ledger holding one deposit of 50 for client 10 under tx id 1. -/
def dbDeposited : BankDatabase :=
  ⟨fun c => if c = 10 then some ⟨50, 0, false⟩ else none,
   fun t => if t = 1 then some ⟨10, 50⟩ else none,
   fun _ => false⟩

/-- A ledger with the deposit of 50 for client 10 under open dispute. -/
def dbDisputed : BankDatabase :=
  ⟨fun c => if c = 10 then some ⟨0, 50, false⟩ else none,
   fun t => if t = 1 then some ⟨10, 50⟩ else none,
   fun t => t == 1⟩

/-- A dispute row for tx id 1 carrying an unrelated client field. -/
def txDispute : Transaction := ⟨.DISPUTE, 20, 0⟩

/-- A resolve row for tx id 1 carrying an unrelated client field. -/
def txResolve : Transaction := ⟨.RESOLVE, 20, 0⟩

/-- A chargeback row for tx id 1 carrying an unrelated client field. -/
def txChargeback : Transaction := ⟨.CHARGEBACK, 20, 0⟩

/-- A withdrawal of 50 by client 10. -/
def txWithdraw50 : Transaction := ⟨.WITHDRAWAL, 10, 50⟩

/-- Deposit then withdrawal for client 10 (no dispute). -/
def depositWithdrawList : List (Nat × Transaction) :=
  [(1, ⟨.DEPOSIT, 10, 50⟩), (2, ⟨.WITHDRAWAL, 10, 20⟩)]

/-- Deposit, full withdrawal, then a dispute of the spent deposit: the
sequence that drives available funds negative. -/
def disputeAfterSpendList : List (Nat × Transaction) :=
  [(1, ⟨.DEPOSIT, 10, 50⟩), (2, ⟨.WITHDRAWAL, 10, 50⟩), (1, ⟨.DISPUTE, 10, 0⟩)]

/-- Two deposits sharing tx id 1 with different amounts. -/
def duplicateDepositList : List (Nat × Transaction) :=
  [(1, ⟨.DEPOSIT, 10, 50⟩), (1, ⟨.DEPOSIT, 10, 100⟩)]

/-! ### Helper lemmas about the map model -/

theorem mapInsert_apply {α : Type} (m : Nat → Option α) (k : Nat) (v : α) (x : Nat) :
    mapInsert m k v x = if x = k then some v else m x := rfl

theorem ensureAccount_apply (m : Nat → Option Account) (c x : Nat) :
    ensureAccount m c x = if x = c then some ((m c).getD Account.default) else m x := rfl

/-! ### Digit and decimal-rendering lemmas -/

theorem charToDigit?_ofNat {d : Nat} (hd : d < 10) :
    charToDigit? (Char.ofNat (48 + d)) = some d := by
  interval_cases d <;> decide

theorem digitChar_ne_dash {d : Nat} (hd : d < 10) : Char.ofNat (48 + d) ≠ '-' := by
  interval_cases d <;> decide

theorem digitChar_ne_plus {d : Nat} (hd : d < 10) : Char.ofNat (48 + d) ≠ '+' := by
  interval_cases d <;> decide

theorem digitChar_ne_dot {d : Nat} (hd : d < 10) : Char.ofNat (48 + d) ≠ '.' := by
  interval_cases d <;> decide

theorem digitChar_ne_zero {d : Nat} (hd : d < 10) (hpos : d ≠ 0) :
    Char.ofNat (48 + d) ≠ '0' := by
  interval_cases d
  · exact absurd rfl hpos
  all_goals decide

theorem natToCharsCore_eq (n : Nat) : ∀ fuel acc, n < fuel →
    natToCharsCore fuel n acc = natToChars n ++ acc := by
  induction n using Nat.strong_induction_on with
  | _ n ih =>
    intro fuel acc h
    match fuel, h with
    | fuel + 1, h =>
      by_cases h10 : n < 10
      · simp [natToCharsCore, natToChars, h10]
      · have hdivlt : n / 10 < n := Nat.div_lt_self (by omega) (by omega)
        have hstep : natToCharsCore (fuel + 1) n acc
            = natToCharsCore fuel (n / 10) (Char.ofNat (48 + n % 10) :: acc) := by
          simp [natToCharsCore, h10]
        have hrhs : natToChars n
            = natToChars (n / 10) ++ [Char.ofNat (48 + n % 10)] := by
          show natToCharsCore (n + 1) n [] = _
          have : natToCharsCore (n + 1) n []
              = natToCharsCore n (n / 10) (Char.ofNat (48 + n % 10) :: []) := by
            simp [natToCharsCore, h10]
          rw [this, ih (n / 10) hdivlt n [Char.ofNat (48 + n % 10)] (by omega)]
        rw [hstep, ih (n / 10) hdivlt fuel _ (by omega), hrhs, List.append_assoc]
        rfl

theorem natToChars_lt10 {n : Nat} (h : n < 10) : natToChars n = [Char.ofNat (48 + n)] := by
  simp [natToChars, natToCharsCore, h]

theorem natToChars_step {n : Nat} (h : 10 ≤ n) :
    natToChars n = natToChars (n / 10) ++ [Char.ofNat (48 + n % 10)] := by
  show natToCharsCore (n + 1) n [] = _
  have h10 : ¬ n < 10 := by omega
  have : natToCharsCore (n + 1) n []
      = natToCharsCore n (n / 10) (Char.ofNat (48 + n % 10) :: []) := by
    simp [natToCharsCore, h10]
  rw [this, natToCharsCore_eq (n / 10) n _ (by
    have := Nat.div_lt_self (show 0 < n by omega) (show 1 < 10 by omega)
    omega)]

theorem natToChars_ne_nil (n : Nat) : natToChars n ≠ [] := by
  by_cases h : n < 10
  · simp [natToChars_lt10 h]
  · rw [natToChars_step (by omega)]
    simp

theorem mem_natToChars {n : Nat} {c : Char} (h : c ∈ natToChars n) :
    ∃ d, d < 10 ∧ c = Char.ofNat (48 + d) := by
  induction n using Nat.strong_induction_on with
  | _ n ih =>
    by_cases h10 : n < 10
    · rw [natToChars_lt10 h10] at h
      simp at h
      exact ⟨n, h10, h⟩
    · rw [natToChars_step (by omega)] at h
      rcases List.mem_append.mp h with h1 | h2
      · exact ih (n / 10) (Nat.div_lt_self (by omega) (by omega)) h1
      · simp at h2
        exact ⟨n % 10, Nat.mod_lt _ (by omega), h2⟩

theorem natToChars_head_ne_zero {n : Nat} (hn : 1 ≤ n) :
    (natToChars n).head? ≠ some '0' := by
  induction n using Nat.strong_induction_on with
  | _ n ih =>
    by_cases h10 : n < 10
    · rw [natToChars_lt10 h10]
      simp
      exact digitChar_ne_zero h10 (by omega)
    · rw [natToChars_step (by omega),
        List.head?_append_of_ne_nil _ (natToChars_ne_nil (n / 10))]
      exact ih (n / 10) (Nat.div_lt_self (by omega) (by omega)) (Nat.one_le_div_iff (by omega) |>.mpr (by omega))

theorem natToChars_length_le {n k : Nat} (hk : 1 ≤ k) (h : n < 10 ^ k) :
    (natToChars n).length ≤ k := by
  induction n using Nat.strong_induction_on generalizing k with
  | _ n ih =>
    by_cases h10 : n < 10
    · rw [natToChars_lt10 h10]
      simpa using hk
    · rw [natToChars_step (by omega)]
      have hk2 : 2 ≤ k := by
        by_contra hc
        have : k = 1 := by omega
        subst this
        simp at h
        omega
      have : n / 10 < 10 ^ (k - 1) := by
        have hpow : 10 ^ k = 10 ^ (k - 1) * 10 := by
          rw [← pow_succ]
          congr 1
          omega
        rw [hpow] at h
        exact Nat.div_lt_of_lt_mul (by omega)
      have hlen := ih (n / 10) (Nat.div_lt_self (by omega) (by omega)) (by omega) this
      simp only [List.length_append, List.length_singleton]
      omega

theorem natToChars_length_ge {n k : Nat} (h : 10 ^ k ≤ n) :
    k + 1 ≤ (natToChars n).length := by
  induction k generalizing n with
  | zero =>
    have := natToChars_ne_nil n
    cases hh : natToChars n with
    | nil => exact absurd hh this
    | cons a l => simp
  | succ k ih =>
    have h10 : 10 ≤ n := le_trans (by
      calc 10 = 10 ^ 1 := (pow_one 10).symm
      _ ≤ 10 ^ (k + 1) := Nat.pow_le_pow_right (by omega) (by omega)) h
    rw [natToChars_step h10]
    have hdiv : 10 ^ k ≤ n / 10 := by
      rw [Nat.le_div_iff_mul_le (by omega)]
      calc 10 ^ k * 10 = 10 ^ (k + 1) := (pow_succ 10 k).symm
      _ ≤ n := h
    have := ih hdiv
    simp only [List.length_append, List.length_singleton]
    omega

/-! ### Parsing lemmas -/

theorem parseDigitsAux_append (xs ys : List Char) (acc : Nat) :
    parseDigitsAux (xs ++ ys) acc =
      match parseDigitsAux xs acc with
      | some m => parseDigitsAux ys m
      | none => none := by
  induction xs generalizing acc with
  | nil => simp [parseDigitsAux]
  | cons c cs ih =>
    simp only [List.cons_append, parseDigitsAux]
    cases charToDigit? c with
    | none => simp
    | some d => simp [ih]

theorem parseDigitsAux_natToChars (n : Nat) : ∀ acc,
    parseDigitsAux (natToChars n) acc = some (acc * 10 ^ (natToChars n).length + n) := by
  induction n using Nat.strong_induction_on with
  | _ n ih =>
    intro acc
    by_cases h10 : n < 10
    · rw [natToChars_lt10 h10]
      simp [parseDigitsAux, charToDigit?_ofNat h10]
    · rw [natToChars_step (by omega), parseDigitsAux_append]
      have hdivlt : n / 10 < n := Nat.div_lt_self (by omega) (by omega)
      rw [ih (n / 10) hdivlt acc]
      have hmod : n % 10 < 10 := Nat.mod_lt _ (by omega)
      simp only [parseDigitsAux, charToDigit?_ofNat hmod]
      congr 1
      simp only [List.length_append, List.length_singleton]
      rw [pow_succ]
      have := Nat.div_add_mod n 10
      ring_nf
      omega

theorem parseDigits?_natToChars (n : Nat) : parseDigits? (natToChars n) = some n := by
  have hne := natToChars_ne_nil n
  cases hh : natToChars n with
  | nil => exact absurd hh hne
  | cons a l =>
    have := parseDigitsAux_natToChars n 0
    rw [hh] at this
    simpa [parseDigits?] using this

theorem parseDigitsAux_none_of_dot {cs : List Char} (h : '.' ∈ cs) (acc : Nat) :
    parseDigitsAux cs acc = none := by
  induction cs generalizing acc with
  | nil => simp at h
  | cons c cs ih =>
    simp only [parseDigitsAux]
    rcases List.mem_cons.mp h with h1 | h2
    · subst h1
      have : charToDigit? '.' = none := by decide
      simp [this]
    · cases hcd : charToDigit? c with
      | none => simp
      | some d => simp [ih h2]

theorem dot_not_mem_of_parseDigits {cs : List Char} {n : Nat}
    (h : parseDigits? cs = some n) : '.' ∉ cs := by
  intro hmem
  cases cs with
  | nil => simp at hmem
  | cons c l =>
    have := parseDigitsAux_none_of_dot hmem 0
    simp [parseDigits?, this] at h

theorem dot_not_mem_natToChars (n : Nat) : '.' ∉ natToChars n := by
  intro h
  obtain ⟨d, hd, hc⟩ := mem_natToChars h
  exact digitChar_ne_dot hd hc.symm

theorem natToChars_head_not_sign (n : Nat) :
    ∀ c rest, natToChars n = c :: rest → c ≠ '-' ∧ c ≠ '+' := by
  intro c rest h
  have hmem : c ∈ natToChars n := by rw [h]; simp
  obtain ⟨d, hd, hc⟩ := mem_natToChars hmem
  subst hc
  exact ⟨digitChar_ne_dash hd, digitChar_ne_plus hd⟩

theorem parseI64Chars_natToChars {n : Nat} (h : (n : Int) ≤ i64Max) :
    parseI64Chars (natToChars n) = some ((n : Int)) := by
  cases hh : natToChars n with
  | nil => exact absurd hh (natToChars_ne_nil n)
  | cons c rest =>
    obtain ⟨hnd, hnp⟩ := natToChars_head_not_sign n c rest hh
    have hp : parseDigitsAux (c :: rest) 0 = some n := by
      have := parseDigits?_natToChars n
      rw [hh] at this
      simpa [parseDigits?] using this
    have hmin : ¬ ((n : Int) < i64Min) := by
      have : (0 : Int) ≤ (n : Int) := Int.ofNat_nonneg n
      simp only [i64Min]
      omega
    simp only [parseI64Chars, hh, if_neg hnd, if_neg hnp, parseDigits?, hp]
    simp [hmin, not_lt.mpr h]

theorem parseI64Chars_intToChars {v : Int} (hmin : i64Min ≤ v) (hmax : v ≤ i64Max) :
    parseI64Chars (intToChars v) = some v := by
  by_cases hneg : v < 0
  · have habs : ((v.natAbs : Int)) = -v := by omega
    have hp : parseDigits? (natToChars v.natAbs) = some v.natAbs :=
      parseDigits?_natToChars _
    have hpx : parseDigitsAux (natToChars v.natAbs) 0 = some v.natAbs := by
      cases hh : natToChars v.natAbs with
      | nil => exact absurd hh (natToChars_ne_nil _)
      | cons c rest =>
        rw [hh] at hp
        simpa [parseDigits?] using hp
    cases hh : natToChars v.natAbs with
    | nil => exact absurd hh (natToChars_ne_nil _)
    | cons c rest =>
      rw [hh] at hp
      have hstep : parseI64Chars ('-' :: c :: rest) =
          (match parseDigits? (c :: rest) with
          | none => none
          | some n => if -((n : Nat) : Int) < i64Min ∨ i64Max < -((n : Nat) : Int) then none
                      else some (-((n : Nat) : Int))) := rfl
      have hval : -((v.natAbs : Int)) = v := by omega
      have hrange : ¬ (v < i64Min ∨ i64Max < v) := by
        push_neg
        exact ⟨hmin, hmax⟩
      simp only [intToChars, if_pos hneg, hh]
      rw [hstep, hp]
      simp [hval, hrange]
      rw [abs_of_neg hneg]
      simp only [i64Min, i64Max] at hmin hmax ⊢
      omega
  · have habs : ((v.natAbs : Int)) = v := by omega
    have hcast : (v.natAbs : Int) ≤ i64Max := by omega
    rw [intToChars, if_neg hneg, parseI64Chars_natToChars hcast, habs]

/-! ### Splitting lemmas -/

theorem splitOnDot_no_dot {B : List Char} (h : '.' ∉ B) : splitOnDot B = [B] := by
  induction B with
  | nil => rfl
  | cons c cs ih =>
    have hc : c ≠ '.' := fun e => h (by simp [e])
    have hcs : '.' ∉ cs := fun m => h (List.mem_cons_of_mem _ m)
    simp [splitOnDot, hc, ih hcs]

theorem splitOnDot_append {A B : List Char} (hA : '.' ∉ A) (hB : '.' ∉ B) :
    splitOnDot (A ++ '.' :: B) = [A, B] := by
  induction A with
  | nil => simp [splitOnDot, splitOnDot_no_dot hB]
  | cons c cs ih =>
    have hc : c ≠ '.' := fun e => hA (by simp [e])
    have hcs : '.' ∉ cs := fun m => hA (List.mem_cons_of_mem _ m)
    simp [splitOnDot, hc, ih hcs]

/-! ### Evaluation of string_to_fixed_point on a well-shaped input -/

theorem string_to_fixed_point_eval {s : String} {A B : List Char} {u : Int} {f : Nat}
    (hsplit : splitOnDot s.data = [A, B])
    (hpu : parseI64Chars A = some u)
    (hu0 : 0 ≤ u)
    (hpf : parseI64Chars B = some ((f : Int)))
    (hlen : B.length ≤ 4)
    (htt_le : (f : Int) * 10 ^ (4 - B.length) ≤ i64Max)
    (hr0 : 0 ≤ u * 10000 + (f : Int) * 10 ^ (4 - B.length))
    (hr1 : u * 10000 + (f : Int) * 10 ^ (4 - B.length) ≤ i64Max) :
    string_to_fixed_point s = some (.ok (u * 10000 + (f : Int) * 10 ^ (4 - B.length))) := by
  have hminneg : i64Min < 0 := by simp only [i64Min]; norm_num
  have htt0 : (0 : Int) ≤ (f : Int) * 10 ^ (4 - B.length) :=
    mul_nonneg (Int.ofNat_nonneg f) (pow_nonneg (by norm_num) _)
  have hgu : ¬ (u < 0) := not_lt.mpr hu0
  have hglen : ¬ (B.length > 4) := by omega
  have hgtt : ¬ ((f : Int) * 10 ^ (4 - B.length) < i64Min ∨
      i64Max < (f : Int) * 10 ^ (4 - B.length)) := by
    push_neg
    exact ⟨by omega, htt_le⟩
  have hgr : ¬ (u * 10000 + (f : Int) * 10 ^ (4 - B.length) < i64Min ∨
      i64Max < u * 10000 + (f : Int) * 10 ^ (4 - B.length)) := by
    push_neg
    exact ⟨by omega, hr1⟩
  simp only [string_to_fixed_point, hsplit, hpu, hpf, EXPECTED_PRECISION,
    FIXED_POINT_MAGNITUDE, if_neg hgu, if_neg hglen, if_neg hgtt, if_neg hgr]

/-! ### The non-negative round trip (holds exactly when the fractional part
is zero or occupies the full four digits) -/

theorem string_to_fixed_point_roundtrip {x : Int} (h0 : 0 ≤ x) (hmax : x ≤ i64Max)
    (hfrac : x.natAbs % 10000 = 0 ∨ 1000 ≤ x.natAbs % 10000) :
    string_to_fixed_point (fixed_point_to_string x) = some (Except.ok x) := by
  have hufold : x.tdiv FIXED_POINT_MAGNITUDE = x / 10000 := by
    simp only [FIXED_POINT_MAGNITUDE]
    exact Int.tdiv_eq_ediv h0 (by norm_num)
  have hu0 : 0 ≤ x / 10000 := Int.ediv_nonneg h0 (by norm_num)
  have hfle : x.natAbs % 10000 < 10000 := Nat.mod_lt _ (by norm_num)
  have hdata : (fixed_point_to_string x).data
      = natToChars (x / 10000).natAbs ++ '.' :: natToChars (x.natAbs % 10000) := by
    simp [fixed_point_to_string, hufold, intToChars, not_lt.mpr hu0]
  have hsplit : splitOnDot (fixed_point_to_string x).data
      = [natToChars (x / 10000).natAbs, natToChars (x.natAbs % 10000)] := by
    rw [hdata]
    exact splitOnDot_append (dot_not_mem_natToChars _) (dot_not_mem_natToChars _)
  have hvu : (((x / 10000).natAbs : Int)) = x / 10000 := by omega
  have humax : (((x / 10000).natAbs : Int)) ≤ i64Max := by
    simp only [i64Max] at hmax ⊢
    omega
  have hpu : parseI64Chars (natToChars (x / 10000).natAbs) = some (((x / 10000).natAbs : Int)) :=
    parseI64Chars_natToChars humax
  have hpf : parseI64Chars (natToChars (x.natAbs % 10000)) = some ((x.natAbs % 10000 : Nat) : Int) :=
    parseI64Chars_natToChars (by simp only [i64Max]; omega)
  have hlen4 : (natToChars (x.natAbs % 10000)).length ≤ 4 :=
    natToChars_length_le (by norm_num) (by norm_num [hfle])
  have htt : ((x.natAbs % 10000 : Nat) : Int) *
      10 ^ (4 - (natToChars (x.natAbs % 10000)).length) = x % 10000 := by
    rcases hfrac with hz | hge
    · rw [hz]
      simp only [Nat.cast_zero, zero_mul]
      omega
    · have hlen : (natToChars (x.natAbs % 10000)).length = 4 :=
        le_antisymm hlen4 (natToChars_length_ge (show 10 ^ 3 ≤ x.natAbs % 10000 by
          norm_num
          exact hge))
      rw [hlen]
      simp only [Nat.sub_self, pow_zero, mul_one]
      omega
  have hmod0 : (0 : Int) ≤ x % 10000 := Int.emod_nonneg x (by norm_num)
  have hmodlt : x % 10000 < 10000 := Int.emod_lt_of_pos x (by norm_num)
  have heval := string_to_fixed_point_eval hsplit hpu (by omega) hpf hlen4
    (by rw [htt]; simp only [i64Max]; omega)
    (by rw [htt, hvu]; omega)
    (by rw [htt, hvu]; simp only [i64Max] at hmax ⊢; omega)
  rw [heval, htt, hvu]
  congr 2
  omega

theorem dot_not_mem_intToChars (v : Int) : '.' ∉ intToChars v := by
  by_cases h : v < 0 <;>
    simp only [intToChars, if_pos, if_neg, h, List.mem_cons, if_true, if_false]
  · rintro (h1 | h2)
    · exact absurd h1 (by decide)
    · exact dot_not_mem_natToChars _ h2
  · exact dot_not_mem_natToChars _

theorem parseI64Chars_dash (l : List Char) :
    parseI64Chars ('-' :: l) =
      (match parseDigits? l with
      | none => none
      | some n =>
        if -((n : Nat) : Int) < i64Min ∨ i64Max < -((n : Nat) : Int) then none
        else some (-((n : Nat) : Int))) := rfl

theorem tdiv_magnitude_bounds {v : Int} (hmin : i64Min < v) (hmax : v ≤ i64Max) :
    i64Min ≤ v.tdiv 10000 ∧ v.tdiv 10000 ≤ i64Max := by
  by_cases h : 0 ≤ v
  · rw [Int.tdiv_eq_ediv h (by norm_num)]
    simp only [i64Min, i64Max] at *
    omega
  · rw [show v = -(-v) by ring, Int.neg_tdiv,
      Int.tdiv_eq_ediv (by omega) (by norm_num)]
    simp only [i64Min, i64Max] at *
    omega

/-- C6 counterexample: the round trip fails for the representable
non-negative value 1 (one ten-thousandth renders as "0.1", which parses
back to 1000), and the negative value -5000 renders without its sign. -/
theorem c6_counterexample :
    string_to_fixed_point (fixed_point_to_string 1) = some (Except.ok 1000) ∧
    (1000 : Int) ≠ 1 ∧
    fixed_point_to_string (-5000) = "0.5000" ∧
    ("0.5000" : String) ≠ "-0.5000" :=
  ⟨rfl, by decide, rfl, by decide⟩

/-- C6 (amended): parse(format(x)) = Ok(x) holds for representable
non-negative x exactly in the cases the unpadded renderer preserves, namely
when the fractional component x mod 10000 is zero or at least 1000 (four
full digits); and for a negative value whose units component is zero the
minus sign is dropped: -5000 renders as "0.5000", not "-0.5000". -/
theorem c6_roundtrip_amended :
    (∀ x : Int, 0 ≤ x → x ≤ i64Max →
      (x.natAbs % 10000 = 0 ∨ 1000 ≤ x.natAbs % 10000) →
      string_to_fixed_point (fixed_point_to_string x) = some (Except.ok x)) ∧
    fixed_point_to_string (-5000) = "0.5000" :=
  ⟨fun _ h0 h1 h2 => string_to_fixed_point_roundtrip h0 h1 h2, rfl⟩

/-- C6 witness: the round trip at 15000 ("1.5000"). -/
theorem c6_witness :
    (0 : Int) ≤ 15000 ∧ (15000 : Int) ≤ i64Max ∧
    ((15000 : Int).natAbs % 10000 = 0 ∨ 1000 ≤ (15000 : Int).natAbs % 10000) ∧
    string_to_fixed_point (fixed_point_to_string 15000) = some (Except.ok 15000) :=
  ⟨by norm_num, by norm_num [i64Max], by norm_num,
    c6_roundtrip_amended.1 15000 (by norm_num) (by norm_num [i64Max]) (by norm_num)⟩

/-- C7 counterexample: the fractional component is not zero-padded; the
value 10000 renders as "1.0", not "1.0000" (the repository's own test
positive_to_string pins "1.0"). -/
theorem c7_counterexample :
    fixed_point_to_string 10000 = "1.0" ∧ ("1.0" : String) ≠ "1.0000" :=
  ⟨rfl, by decide⟩

/-- C7 (amended): for every i64 value v (other than i64::MIN, where the
abs call would overflow), fixed_point_to_string produces
"{units}.{fraction}" where units is v / 10000 by truncating division,
fraction is abs(v) mod 10000 rendered as a plain decimal number with NO
zero-padding (no leading zeros; e.g. 10000 renders "1.0" and 10010 renders
"1.10"), and a minus sign can appear only on the units component. -/
theorem c7_format_amended {v : Int} (hmin : i64Min < v) (hmax : v ≤ i64Max) :
    splitOnDot (fixed_point_to_string v).data =
      [intToChars (v.tdiv FIXED_POINT_MAGNITUDE), natToChars (v.natAbs % 10000)] ∧
    parseI64Chars (intToChars (v.tdiv FIXED_POINT_MAGNITUDE)) =
      some (v.tdiv FIXED_POINT_MAGNITUDE) ∧
    parseDigits? (natToChars (v.natAbs % 10000)) = some (v.natAbs % 10000) ∧
    (v.natAbs % 10000 = 0 ∨ (natToChars (v.natAbs % 10000)).head? ≠ some '0') ∧
    (∀ c ∈ natToChars (v.natAbs % 10000), c ≠ '-') := by
  obtain ⟨hb1, hb2⟩ := tdiv_magnitude_bounds hmin hmax
  refine ⟨?_, ?_, ?_, ?_, ?_⟩
  · show splitOnDot (intToChars (v.tdiv FIXED_POINT_MAGNITUDE) ++
      '.' :: natToChars (v.natAbs % 10000)) = _
    exact splitOnDot_append (dot_not_mem_intToChars _) (dot_not_mem_natToChars _)
  · exact parseI64Chars_intToChars (by simpa [FIXED_POINT_MAGNITUDE] using hb1)
      (by simpa [FIXED_POINT_MAGNITUDE] using hb2)
  · exact parseDigits?_natToChars _
  · by_cases hz : v.natAbs % 10000 = 0
    · exact Or.inl hz
    · exact Or.inr (natToChars_head_ne_zero (by omega))
  · intro c hc
    obtain ⟨d, hd, hcd⟩ := mem_natToChars hc
    subst hcd
    exact digitChar_ne_dash hd

/-- C7 witness: the amended format description at v = 10010. -/
theorem c7_witness :
    i64Min < (10010 : Int) ∧ (10010 : Int) ≤ i64Max ∧
    (splitOnDot (fixed_point_to_string (10010 : Int)).data =
      [intToChars ((10010 : Int).tdiv FIXED_POINT_MAGNITUDE),
       natToChars ((10010 : Int).natAbs % 10000)] ∧
    parseI64Chars (intToChars ((10010 : Int).tdiv FIXED_POINT_MAGNITUDE)) =
      some ((10010 : Int).tdiv FIXED_POINT_MAGNITUDE) ∧
    parseDigits? (natToChars ((10010 : Int).natAbs % 10000)) =
      some ((10010 : Int).natAbs % 10000) ∧
    ((10010 : Int).natAbs % 10000 = 0 ∨
      (natToChars ((10010 : Int).natAbs % 10000)).head? ≠ some '0') ∧
    (∀ c ∈ natToChars ((10010 : Int).natAbs % 10000), c ≠ '-')) :=
  ⟨by norm_num [i64Min], by norm_num [i64Max],
    c7_format_amended (by norm_num [i64Min]) (by norm_num [i64Max])⟩

/-- C8 counterexample: "-0.5" denotes a negative amount and is well-formed
apart from the sign, yet string_to_fixed_point returns Ok(5000): the units
component "-0" parses to 0, which is not below zero, so the negativity
check does not fire. -/
theorem c8_counterexample :
    string_to_fixed_point "-0.5" = some (Except.ok 5000) := rfl

/-- C8 (amended): a leading minus sign is rejected with the "Invalid
amount: negative" error exactly when the units component parses to a value
strictly below zero; a minus sign attached to a zero units component (as in
"-0.5") escapes the check and yields Ok of the positive fractional value. -/
theorem c8_negative_rejected_amended :
    (∀ u f n, parseDigits? u = some n → 0 < n → ((n : Nat) : Int) ≤ 2 ^ 63 →
      '.' ∉ f →
      string_to_fixed_point (String.mk ('-' :: u ++ '.' :: f)) =
        some (Except.error "Invalid amount: negative")) ∧
    string_to_fixed_point "-0.5" = some (Except.ok 5000) := by
  refine ⟨?_, rfl⟩
  intro u f n hu hn hle hf
  have hdotu : '.' ∉ ('-' :: u) := by
    intro h
    rcases List.mem_cons.mp h with h1 | h2
    · exact absurd h1 (by decide)
    · exact dot_not_mem_of_parseDigits hu h2
  have hsplit : splitOnDot (String.mk ('-' :: u ++ '.' :: f)).data = ['-' :: u, f] := by
    show splitOnDot (('-' :: u) ++ '.' :: f) = _
    exact splitOnDot_append hdotu hf
  have hparse : parseI64Chars ('-' :: u) = some (-((n : Nat) : Int)) := by
    rw [parseI64Chars_dash, hu]
    have hr : ¬ (-((n : Nat) : Int) < i64Min ∨ i64Max < -((n : Nat) : Int)) := by
      push_neg
      constructor
      · simp only [i64Min]
        omega
      · simp only [i64Max]
        omega
    simp [hr]
  have hlt : -((n : Nat) : Int) < 0 := by omega
  simp only [string_to_fixed_point, hsplit, hparse, if_pos hlt]

/-- C8 witness: "-1.010" is rejected with the negative-amount error. -/
theorem c8_witness :
    parseDigits? ['1'] = some 1 ∧ 0 < 1 ∧ ((1 : Nat) : Int) ≤ 2 ^ 63 ∧
    '.' ∉ ['0', '1', '0'] ∧
    string_to_fixed_point (String.mk ('-' :: ['1'] ++ '.' :: ['0', '1', '0'])) =
      some (Except.error "Invalid amount: negative") :=
  ⟨rfl, by decide, by norm_num, by decide,
    c8_negative_rejected_amended.1 ['1'] ['0', '1', '0'] 1 rfl (by decide)
      (by norm_num) (by decide)⟩

/-! ### Branch evaluation lemmas for execute_transaction -/

theorem execute_deposit_eq (db : BankDatabase) (id : Nat) (tx : Transaction)
    (htype : tx.type = .DEPOSIT) :
    db.execute_transaction id tx = some
      { accounts := ensureAccount (mapInsert db.accounts tx.client
          { (db.accounts tx.client).getD Account.default with
            available_funds :=
              ((db.accounts tx.client).getD Account.default).available_funds + tx.amount })
          tx.client,
        deposits := mapInsert db.deposits id ⟨tx.client, tx.amount⟩,
        disputes := db.disputes } := by
  simp [BankDatabase.execute_transaction, htype]

theorem execute_withdrawal_reject (db : BankDatabase) (id : Nat) (tx : Transaction)
    (htype : tx.type = .WITHDRAWAL)
    (hrej : ((db.accounts tx.client).getD Account.default).locked = true ∨
      ((db.accounts tx.client).getD Account.default).available_funds < tx.amount) :
    db.execute_transaction id tx = some
      { accounts := mapInsert db.accounts tx.client
          ((db.accounts tx.client).getD Account.default),
        deposits := db.deposits,
        disputes := db.disputes } := by
  rcases hrej with h | h
  · simp [BankDatabase.execute_transaction, htype, h]
  · by_cases hl : ((db.accounts tx.client).getD Account.default).locked
    · simp [BankDatabase.execute_transaction, htype, hl]
    · simp [BankDatabase.execute_transaction, htype, hl, h]

theorem execute_withdrawal_success (db : BankDatabase) (id : Nat) (tx : Transaction)
    (htype : tx.type = .WITHDRAWAL)
    (hlock : ((db.accounts tx.client).getD Account.default).locked = false)
    (hav : tx.amount ≤ ((db.accounts tx.client).getD Account.default).available_funds) :
    db.execute_transaction id tx = some
      { accounts := ensureAccount (mapInsert
          (mapInsert db.accounts tx.client ((db.accounts tx.client).getD Account.default))
          tx.client
          { (db.accounts tx.client).getD Account.default with
            available_funds :=
              ((db.accounts tx.client).getD Account.default).available_funds - tx.amount })
          tx.client,
        deposits := db.deposits,
        disputes := db.disputes } := by
  simp [BankDatabase.execute_transaction, htype, hlock, not_lt.mpr hav]

theorem execute_dispute_dup (db : BankDatabase) (id : Nat) (tx : Transaction)
    (htype : tx.type = .DISPUTE) (hd : db.disputes id = true) :
    db.execute_transaction id tx = some db := by
  simp [BankDatabase.execute_transaction, htype, hd]

theorem execute_dispute_unknown (db : BankDatabase) (id : Nat) (tx : Transaction)
    (htype : tx.type = .DISPUTE) (hd : db.disputes id = false)
    (hdep : db.deposits id = none) :
    db.execute_transaction id tx = some
      { accounts := ensureAccount db.accounts tx.client,
        deposits := db.deposits,
        disputes := db.disputes } := by
  simp [BankDatabase.execute_transaction, htype, hd, hdep]

theorem execute_dispute_success (db : BankDatabase) (id : Nat) (tx : Transaction)
    (dep : DepositRecord) (acct : Account)
    (htype : tx.type = .DISPUTE) (hd : db.disputes id = false)
    (hdep : db.deposits id = some dep) (hacct : db.accounts dep.client = some acct) :
    db.execute_transaction id tx = some
      { accounts := ensureAccount (mapInsert db.accounts dep.client
          { acct with
            available_funds := acct.available_funds - dep.amount,
            held_funds := acct.held_funds + dep.amount }) tx.client,
        deposits := db.deposits,
        disputes := fun x => if x = id then true else db.disputes x } := by
  simp [BankDatabase.execute_transaction, htype, hd, hdep, hacct]

theorem execute_resolve_noop (db : BankDatabase) (id : Nat) (tx : Transaction)
    (htype : tx.type = .RESOLVE) (hd : db.disputes id = false) :
    db.execute_transaction id tx = some db := by
  simp [BankDatabase.execute_transaction, htype, hd]

theorem execute_resolve_success (db : BankDatabase) (id : Nat) (tx : Transaction)
    (dep : DepositRecord) (acct : Account)
    (htype : tx.type = .RESOLVE) (hd : db.disputes id = true)
    (hdep : db.deposits id = some dep) (hacct : db.accounts dep.client = some acct) :
    db.execute_transaction id tx = some
      { accounts := ensureAccount (mapInsert db.accounts dep.client
          { acct with
            held_funds := acct.held_funds - dep.amount,
            available_funds := acct.available_funds + dep.amount }) tx.client,
        deposits := db.deposits,
        disputes := fun x => if x = id then false else db.disputes x } := by
  simp [BankDatabase.execute_transaction, htype, hd, hdep, hacct]

theorem execute_chargeback_noop (db : BankDatabase) (id : Nat) (tx : Transaction)
    (htype : tx.type = .CHARGEBACK) (hd : db.disputes id = false) :
    db.execute_transaction id tx = some db := by
  simp [BankDatabase.execute_transaction, htype, hd]

theorem execute_chargeback_success (db : BankDatabase) (id : Nat) (tx : Transaction)
    (dep : DepositRecord) (acct : Account)
    (htype : tx.type = .CHARGEBACK) (hd : db.disputes id = true)
    (hdep : db.deposits id = some dep) (hacct : db.accounts dep.client = some acct) :
    db.execute_transaction id tx = some
      { accounts := ensureAccount (mapInsert db.accounts dep.client
          { acct with
            held_funds := acct.held_funds - dep.amount,
            locked := true }) tx.client,
        deposits := db.deposits,
        disputes := fun x => if x = id then false else db.disputes x } := by
  simp [BankDatabase.execute_transaction, htype, hd, hdep, hacct]

theorem getD_ensureAccount (m : Nat → Option Account) (c x : Nat) :
    (ensureAccount m c x).getD Account.default = (m x).getD Account.default := by
  by_cases h : x = c
  · subst h
    simp [ensureAccount]
  · simp [ensureAccount, h]

theorem getD_mapInsert_self (m : Nat → Option Account) (k : Nat) (v : Account) :
    (mapInsert m k v k).getD Account.default = v := by
  simp [mapInsert]

theorem getD_mapInsert_other (m : Nat → Option Account) (k : Nat) (v : Account)
    {x : Nat} (h : x ≠ k) :
    (mapInsert m k v x).getD Account.default = (m x).getD Account.default := by
  simp [mapInsert, h]

/-- C1: For every ledger state and DISPUTE transaction with id t: if t is
not already disputed and a deposit record for t exists (and, as in every
reachable state, the deposit client's account exists), execute_transaction
moves the record's amount from the original client's available funds to the
same account's held funds and inserts t into the disputed-set, ignoring the
dispute row's own client field for balance effects; if t is already
disputed or no deposit record exists, no balance, deposit record, or
disputed-set membership changes. -/
theorem c1_dispute_semantics (db : BankDatabase) (id : Nat) (tx : Transaction)
    (htype : tx.type = .DISPUTE) :
    (∀ dep acct, db.disputes id = false → db.deposits id = some dep →
      db.accounts dep.client = some acct →
      ∃ db', db.execute_transaction id tx = some db' ∧
        db'.availableOf dep.client = db.availableOf dep.client - dep.amount ∧
        db'.heldOf dep.client = db.heldOf dep.client + dep.amount ∧
        db'.disputes id = true ∧
        (∀ t, t ≠ id → db'.disputes t = db.disputes t) ∧
        db'.deposits = db.deposits ∧
        (∀ c, c ≠ dep.client → db'.availableOf c = db.availableOf c ∧
          db'.heldOf c = db.heldOf c) ∧
        (∀ c, db'.lockedOf c = db.lockedOf c)) ∧
    ((db.disputes id = true ∨ db.deposits id = none) →
      ∃ db', db.execute_transaction id tx = some db' ∧
        SameBalances db db' ∧ db'.deposits = db.deposits ∧
        db'.disputes = db.disputes) := by
  constructor
  · intro dep acct hd hdep hacct
    refine ⟨_, execute_dispute_success db id tx dep acct htype hd hdep hacct, ?_, ?_, ?_, ?_, rfl, ?_, ?_⟩
    · simp [BankDatabase.availableOf, getD_ensureAccount, getD_mapInsert_self, hacct]
    · simp [BankDatabase.heldOf, getD_ensureAccount, getD_mapInsert_self, hacct]
    · simp
    · intro t ht
      simp [ht]
    · intro c hc
      constructor
      · simp [BankDatabase.availableOf, getD_ensureAccount, getD_mapInsert_other _ _ _ hc]
      · simp [BankDatabase.heldOf, getD_ensureAccount, getD_mapInsert_other _ _ _ hc]
    · intro c
      by_cases hc : c = dep.client
      · subst hc
        simp [BankDatabase.lockedOf, getD_ensureAccount, getD_mapInsert_self, hacct]
      · simp [BankDatabase.lockedOf, getD_ensureAccount, getD_mapInsert_other _ _ _ hc]
  · intro h
    cases hdb : db.disputes id with
    | true =>
      exact ⟨db, execute_dispute_dup db id tx htype hdb, fun c => ⟨rfl, rfl, rfl⟩, rfl, rfl⟩
    | false =>
      have hdep : db.deposits id = none := by
        rcases h with h1 | h2
        · rw [hdb] at h1
          exact absurd h1 (by simp)
        · exact h2
      refine ⟨_, execute_dispute_unknown db id tx htype hdb hdep, ?_, rfl, rfl⟩
      intro c
      refine ⟨?_, ?_, ?_⟩ <;>
        simp [BankDatabase.availableOf, BankDatabase.heldOf, BankDatabase.lockedOf,
          getD_ensureAccount]

/-- C1 witness: disputing the deposit of 50 held by client 10 (the dispute
row carries client 20, which is ignored for balance effects). -/
theorem c1_witness :
    ∃ db', dbDeposited.execute_transaction 1 txDispute = some db' ∧
      db'.availableOf 10 = dbDeposited.availableOf 10 - 50 ∧
      db'.heldOf 10 = dbDeposited.heldOf 10 + 50 ∧
      db'.disputes 1 = true ∧
      (∀ t, t ≠ 1 → db'.disputes t = dbDeposited.disputes t) ∧
      db'.deposits = dbDeposited.deposits ∧
      (∀ c, c ≠ 10 → db'.availableOf c = dbDeposited.availableOf c ∧
        db'.heldOf c = dbDeposited.heldOf c) ∧
      (∀ c, db'.lockedOf c = dbDeposited.lockedOf c) :=
  (c1_dispute_semantics dbDeposited 1 txDispute rfl).1 ⟨10, 50⟩ ⟨50, 0, false⟩ rfl rfl rfl

/-- C2: A WITHDRAWAL of amount a by client c is rejected with no change to
balances, deposit records, or the disputed-set iff available(c) < a or the
account is locked; otherwise available(c) decreases by exactly a while
held(c), locked(c) and every other account are unchanged. -/
theorem c2_withdrawal_iff (db : BankDatabase) (id : Nat) (tx : Transaction)
    (htype : tx.type = .WITHDRAWAL) :
    ∃ db', db.execute_transaction id tx = some db' ∧
      db'.deposits = db.deposits ∧ db'.disputes = db.disputes ∧
      (if db.lockedOf tx.client = true ∨ db.availableOf tx.client < tx.amount then
        SameBalances db db'
      else
        db'.availableOf tx.client = db.availableOf tx.client - tx.amount ∧
        db'.heldOf tx.client = db.heldOf tx.client ∧
        db'.lockedOf tx.client = db.lockedOf tx.client ∧
        (∀ c, c ≠ tx.client → db'.availableOf c = db.availableOf c ∧
          db'.heldOf c = db.heldOf c ∧ db'.lockedOf c = db.lockedOf c)) := by
  by_cases hrej : db.lockedOf tx.client = true ∨ db.availableOf tx.client < tx.amount
  · refine ⟨_, execute_withdrawal_reject db id tx htype hrej, rfl, rfl, ?_⟩
    rw [if_pos hrej]
    intro c
    by_cases hc : c = tx.client
    · subst hc
      refine ⟨?_, ?_, ?_⟩ <;>
        simp [BankDatabase.availableOf, BankDatabase.heldOf, BankDatabase.lockedOf,
          getD_mapInsert_self]
    · refine ⟨?_, ?_, ?_⟩ <;>
        simp [BankDatabase.availableOf, BankDatabase.heldOf, BankDatabase.lockedOf,
          getD_mapInsert_other _ _ _ hc]
  · push_neg at hrej
    obtain ⟨hlock, hav⟩ := hrej
    have hlock' : ((db.accounts tx.client).getD Account.default).locked = false :=
      Bool.not_eq_true _ |>.mp hlock
    refine ⟨_, execute_withdrawal_success db id tx htype hlock' hav, rfl, rfl, ?_⟩
    rw [if_neg (by push_neg; exact ⟨hlock, hav⟩)]
    refine ⟨?_, ?_, ?_, ?_⟩
    · simp [BankDatabase.availableOf, getD_ensureAccount, getD_mapInsert_self]
    · simp [BankDatabase.heldOf, getD_ensureAccount, getD_mapInsert_self]
    · simp [BankDatabase.lockedOf, getD_ensureAccount, getD_mapInsert_self, hlock']
    · intro c hc
      refine ⟨?_, ?_, ?_⟩ <;>
        simp [BankDatabase.availableOf, BankDatabase.heldOf, BankDatabase.lockedOf,
          getD_ensureAccount, getD_mapInsert_other _ _ _ hc]

/-- C2 witness: a withdrawal of 50 by client 10 against the empty ledger is
rejected (available 0 < 50) with all balances unchanged. -/
theorem c2_witness :
    txWithdraw50.type = .WITHDRAWAL ∧
    ∃ db', BankDatabase.default.execute_transaction 1 txWithdraw50 = some db' ∧
      db'.deposits = BankDatabase.default.deposits ∧
      db'.disputes = BankDatabase.default.disputes ∧
      (if BankDatabase.default.lockedOf txWithdraw50.client = true ∨
          BankDatabase.default.availableOf txWithdraw50.client < txWithdraw50.amount then
        SameBalances BankDatabase.default db'
      else
        db'.availableOf txWithdraw50.client =
          BankDatabase.default.availableOf txWithdraw50.client - txWithdraw50.amount ∧
        db'.heldOf txWithdraw50.client = BankDatabase.default.heldOf txWithdraw50.client ∧
        db'.lockedOf txWithdraw50.client = BankDatabase.default.lockedOf txWithdraw50.client ∧
        (∀ c, c ≠ txWithdraw50.client →
          db'.availableOf c = BankDatabase.default.availableOf c ∧
          db'.heldOf c = BankDatabase.default.heldOf c ∧
          db'.lockedOf c = BankDatabase.default.lockedOf c)) :=
  ⟨rfl, c2_withdrawal_iff BankDatabase.default 1 txWithdraw50 rfl⟩

/-- C3: A RESOLVE or CHARGEBACK whose transaction id is not currently
disputed is a no-op (the state is returned unchanged); when the id is
disputed, a RESOLVE moves the referenced deposit's amount from the deposit
client's held funds back to that client's available funds and removes the
id from the disputed-set, so the id leaves the open-dispute state. -/
theorem c3_resolve_semantics (db : BankDatabase) (id : Nat) (tx : Transaction)
    (htype : tx.type = .RESOLVE ∨ tx.type = .CHARGEBACK) :
    (db.disputes id = false → db.execute_transaction id tx = some db) ∧
    (∀ dep acct, tx.type = .RESOLVE → db.disputes id = true →
      db.deposits id = some dep → db.accounts dep.client = some acct →
      ∃ db', db.execute_transaction id tx = some db' ∧
        db'.heldOf dep.client = db.heldOf dep.client - dep.amount ∧
        db'.availableOf dep.client = db.availableOf dep.client + dep.amount ∧
        db'.lockedOf dep.client = db.lockedOf dep.client ∧
        db'.disputes id = false ∧
        (∀ t, t ≠ id → db'.disputes t = db.disputes t) ∧
        db'.deposits = db.deposits ∧
        (∀ c, c ≠ dep.client → db'.availableOf c = db.availableOf c ∧
          db'.heldOf c = db.heldOf c ∧ db'.lockedOf c = db.lockedOf c)) := by
  constructor
  · intro hd
    rcases htype with h | h
    · exact execute_resolve_noop db id tx h hd
    · exact execute_chargeback_noop db id tx h hd
  · intro dep acct hres hd hdep hacct
    refine ⟨_, execute_resolve_success db id tx dep acct hres hd hdep hacct,
      ?_, ?_, ?_, ?_, ?_, rfl, ?_⟩
    · simp [BankDatabase.heldOf, getD_ensureAccount, getD_mapInsert_self, hacct]
    · simp [BankDatabase.availableOf, getD_ensureAccount, getD_mapInsert_self, hacct]
    · simp [BankDatabase.lockedOf, getD_ensureAccount, getD_mapInsert_self, hacct]
    · simp
    · intro t ht
      simp [ht]
    · intro c hc
      refine ⟨?_, ?_, ?_⟩ <;>
        simp [BankDatabase.availableOf, BankDatabase.heldOf, BankDatabase.lockedOf,
          getD_ensureAccount, getD_mapInsert_other _ _ _ hc]

/-- C3 witness: a RESOLVE on the undisputed empty ledger is a no-op, and a
RESOLVE of the open dispute on the deposit of 50 returns the funds to
client 10's available balance and closes the dispute. -/
theorem c3_witness :
    BankDatabase.default.execute_transaction 1 txResolve = some BankDatabase.default ∧
    (∃ db', dbDisputed.execute_transaction 1 txResolve = some db' ∧
      db'.heldOf 10 = dbDisputed.heldOf 10 - 50 ∧
      db'.availableOf 10 = dbDisputed.availableOf 10 + 50 ∧
      db'.lockedOf 10 = dbDisputed.lockedOf 10 ∧
      db'.disputes 1 = false ∧
      (∀ t, t ≠ 1 → db'.disputes t = dbDisputed.disputes t) ∧
      db'.deposits = dbDisputed.deposits ∧
      (∀ c, c ≠ 10 → db'.availableOf c = dbDisputed.availableOf c ∧
        db'.heldOf c = dbDisputed.heldOf c ∧ db'.lockedOf c = dbDisputed.lockedOf c)) :=
  ⟨(c3_resolve_semantics BankDatabase.default 1 txResolve (Or.inl rfl)).1 rfl,
    (c3_resolve_semantics dbDisputed 1 txResolve (Or.inl rfl)).2 ⟨10, 50⟩ ⟨0, 50, false⟩
      rfl rfl rfl rfl⟩

theorem execute_dispute_panic (db : BankDatabase) (id : Nat) (tx : Transaction)
    (dep : DepositRecord) (htype : tx.type = .DISPUTE) (hd : db.disputes id = false)
    (hdep : db.deposits id = some dep) (hacct : db.accounts dep.client = none) :
    db.execute_transaction id tx = none := by
  simp [BankDatabase.execute_transaction, htype, hd, hdep, hacct]

theorem execute_resolve_panic_nodep (db : BankDatabase) (id : Nat) (tx : Transaction)
    (htype : tx.type = .RESOLVE) (hd : db.disputes id = true)
    (hdep : db.deposits id = none) :
    db.execute_transaction id tx = none := by
  simp [BankDatabase.execute_transaction, htype, hd, hdep]

theorem execute_resolve_panic_noacct (db : BankDatabase) (id : Nat) (tx : Transaction)
    (dep : DepositRecord) (htype : tx.type = .RESOLVE) (hd : db.disputes id = true)
    (hdep : db.deposits id = some dep) (hacct : db.accounts dep.client = none) :
    db.execute_transaction id tx = none := by
  simp [BankDatabase.execute_transaction, htype, hd, hdep, hacct]

theorem execute_chargeback_panic_nodep (db : BankDatabase) (id : Nat) (tx : Transaction)
    (htype : tx.type = .CHARGEBACK) (hd : db.disputes id = true)
    (hdep : db.deposits id = none) :
    db.execute_transaction id tx = none := by
  simp [BankDatabase.execute_transaction, htype, hd, hdep]

theorem execute_chargeback_panic_noacct (db : BankDatabase) (id : Nat) (tx : Transaction)
    (dep : DepositRecord) (htype : tx.type = .CHARGEBACK) (hd : db.disputes id = true)
    (hdep : db.deposits id = some dep) (hacct : db.accounts dep.client = none) :
    db.execute_transaction id tx = none := by
  simp [BankDatabase.execute_transaction, htype, hd, hdep, hacct]

theorem lockedOf_mono (db db' : BankDatabase) (id : Nat) (tx : Transaction) (c : Nat)
    (hstep : db.execute_transaction id tx = some db')
    (h : db.lockedOf c = true) : db'.lockedOf c = true := by
  cases htype : tx.type with
  | DEPOSIT =>
    rw [execute_deposit_eq db id tx htype] at hstep
    obtain rfl : _ = db' := Option.some.injEq _ _ |>.mp hstep
    by_cases hc : c = tx.client
    · subst hc
      simpa [BankDatabase.lockedOf, getD_ensureAccount, getD_mapInsert_self] using h
    · simpa [BankDatabase.lockedOf, getD_ensureAccount, getD_mapInsert_other _ _ _ hc] using h
  | WITHDRAWAL =>
    by_cases hrej : ((db.accounts tx.client).getD Account.default).locked = true ∨
        ((db.accounts tx.client).getD Account.default).available_funds < tx.amount
    · rw [execute_withdrawal_reject db id tx htype hrej] at hstep
      obtain rfl : _ = db' := Option.some.injEq _ _ |>.mp hstep
      by_cases hc : c = tx.client
      · subst hc
        simpa [BankDatabase.lockedOf, getD_mapInsert_self] using h
      · simpa [BankDatabase.lockedOf, getD_mapInsert_other _ _ _ hc] using h
    · push_neg at hrej
      obtain ⟨hlock, hav⟩ := hrej
      rw [execute_withdrawal_success db id tx htype (Bool.not_eq_true _ |>.mp hlock) hav]
        at hstep
      obtain rfl : _ = db' := Option.some.injEq _ _ |>.mp hstep
      by_cases hc : c = tx.client
      · subst hc
        simpa [BankDatabase.lockedOf, getD_ensureAccount, getD_mapInsert_self] using h
      · simpa [BankDatabase.lockedOf, getD_ensureAccount, getD_mapInsert_other _ _ _ hc] using h
  | DISPUTE =>
    cases hd : db.disputes id with
    | true =>
      rw [execute_dispute_dup db id tx htype hd] at hstep
      obtain rfl : db = db' := Option.some.injEq _ _ |>.mp hstep
      exact h
    | false =>
      cases hdep : db.deposits id with
      | none =>
        rw [execute_dispute_unknown db id tx htype hd hdep] at hstep
        obtain rfl : _ = db' := Option.some.injEq _ _ |>.mp hstep
        simpa [BankDatabase.lockedOf, getD_ensureAccount] using h
      | some dep =>
        cases hacct : db.accounts dep.client with
        | none =>
          rw [execute_dispute_panic db id tx dep htype hd hdep hacct] at hstep
          exact absurd hstep (by simp)
        | some acct =>
          rw [execute_dispute_success db id tx dep acct htype hd hdep hacct] at hstep
          obtain rfl : _ = db' := Option.some.injEq _ _ |>.mp hstep
          by_cases hc : c = dep.client
          · subst hc
            rw [BankDatabase.lockedOf] at h
            rw [hacct] at h
            simpa [BankDatabase.lockedOf, getD_ensureAccount, getD_mapInsert_self] using h
          · simpa [BankDatabase.lockedOf, getD_ensureAccount,
              getD_mapInsert_other _ _ _ hc] using h
  | RESOLVE =>
    cases hd : db.disputes id with
    | false =>
      rw [execute_resolve_noop db id tx htype hd] at hstep
      obtain rfl : db = db' := Option.some.injEq _ _ |>.mp hstep
      exact h
    | true =>
      cases hdep : db.deposits id with
      | none =>
        rw [execute_resolve_panic_nodep db id tx htype hd hdep] at hstep
        exact absurd hstep (by simp)
      | some dep =>
        cases hacct : db.accounts dep.client with
        | none =>
          rw [execute_resolve_panic_noacct db id tx dep htype hd hdep hacct] at hstep
          exact absurd hstep (by simp)
        | some acct =>
          rw [execute_resolve_success db id tx dep acct htype hd hdep hacct] at hstep
          obtain rfl : _ = db' := Option.some.injEq _ _ |>.mp hstep
          by_cases hc : c = dep.client
          · subst hc
            rw [BankDatabase.lockedOf] at h
            rw [hacct] at h
            simpa [BankDatabase.lockedOf, getD_ensureAccount, getD_mapInsert_self] using h
          · simpa [BankDatabase.lockedOf, getD_ensureAccount,
              getD_mapInsert_other _ _ _ hc] using h
  | CHARGEBACK =>
    cases hd : db.disputes id with
    | false =>
      rw [execute_chargeback_noop db id tx htype hd] at hstep
      obtain rfl : db = db' := Option.some.injEq _ _ |>.mp hstep
      exact h
    | true =>
      cases hdep : db.deposits id with
      | none =>
        rw [execute_chargeback_panic_nodep db id tx htype hd hdep] at hstep
        exact absurd hstep (by simp)
      | some dep =>
        cases hacct : db.accounts dep.client with
        | none =>
          rw [execute_chargeback_panic_noacct db id tx dep htype hd hdep hacct] at hstep
          exact absurd hstep (by simp)
        | some acct =>
          rw [execute_chargeback_success db id tx dep acct htype hd hdep hacct] at hstep
          obtain rfl : _ = db' := Option.some.injEq _ _ |>.mp hstep
          by_cases hc : c = dep.client
          · subst hc
            simp [BankDatabase.lockedOf, getD_ensureAccount, getD_mapInsert_self]
          · simpa [BankDatabase.lockedOf, getD_ensureAccount,
              getD_mapInsert_other _ _ _ hc] using h

theorem lockedOf_mono_run (txs : List (Nat × Transaction)) :
    ∀ db db' c, runTransactions db txs = some db' →
      db.lockedOf c = true → db'.lockedOf c = true := by
  induction txs with
  | nil =>
    intro db db' c hrun h
    obtain rfl : db = db' := Option.some.injEq _ _ |>.mp hrun
    exact h
  | cons t rest ih =>
    intro db db' c hrun h
    rw [runTransactions] at hrun
    cases hstep : db.execute_transaction t.1 t.2 with
    | none => rw [hstep] at hrun; exact absurd hrun (by simp)
    | some db1 =>
      rw [hstep] at hrun
      exact ih db1 db' c hrun (lockedOf_mono db db1 t.1 t.2 c hstep h)

theorem withdrawal_locked_frame (db : BankDatabase) (id : Nat) (tx : Transaction)
    (htype : tx.type = .WITHDRAWAL) (hl : db.lockedOf tx.client = true) :
    ∃ db', db.execute_transaction id tx = some db' ∧ SameBalances db db' := by
  refine ⟨_, execute_withdrawal_reject db id tx htype (Or.inl hl), ?_⟩
  intro c
  by_cases hc : c = tx.client
  · subst hc
    refine ⟨?_, ?_, ?_⟩ <;>
      simp [BankDatabase.availableOf, BankDatabase.heldOf, BankDatabase.lockedOf,
        getD_mapInsert_self]
  · refine ⟨?_, ?_, ?_⟩ <;>
      simp [BankDatabase.availableOf, BankDatabase.heldOf, BankDatabase.lockedOf,
        getD_mapInsert_other _ _ _ hc]

/-- C4: A CHARGEBACK of a disputed transaction id subtracts the referenced
deposit's amount from the deposit client's held funds, sets locked on that
account, and removes the id from the disputed-set; the lock is permanent
(it survives every subsequent transaction sequence) and every later
WITHDRAWAL for that client is rejected with no balance change, however
large the available funds. -/
theorem c4_chargeback_locks (db : BankDatabase) (id : Nat) (tx : Transaction)
    (dep : DepositRecord) (acct : Account)
    (htype : tx.type = .CHARGEBACK) (hd : db.disputes id = true)
    (hdep : db.deposits id = some dep) (hacct : db.accounts dep.client = some acct) :
    ∃ db', db.execute_transaction id tx = some db' ∧
      db'.heldOf dep.client = db.heldOf dep.client - dep.amount ∧
      db'.lockedOf dep.client = true ∧
      db'.availableOf dep.client = db.availableOf dep.client ∧
      db'.disputes id = false ∧
      (∀ t, t ≠ id → db'.disputes t = db.disputes t) ∧
      db'.deposits = db.deposits ∧
      (∀ txs db2, runTransactions db' txs = some db2 →
        db2.lockedOf dep.client = true) ∧
      (∀ txs db2, runTransactions db' txs = some db2 →
        ∀ id2 tx2, tx2.type = .WITHDRAWAL → tx2.client = dep.client →
          ∃ db3, db2.execute_transaction id2 tx2 = some db3 ∧ SameBalances db2 db3) := by
  have hlocked : ∀ db0, db.execute_transaction id tx = some db0 →
      db0.lockedOf dep.client = true := by
    intro db0 hstep
    rw [execute_chargeback_success db id tx dep acct htype hd hdep hacct] at hstep
    obtain rfl : _ = db0 := Option.some.injEq _ _ |>.mp hstep
    simp [BankDatabase.lockedOf, getD_ensureAccount, getD_mapInsert_self]
  refine ⟨_, execute_chargeback_success db id tx dep acct htype hd hdep hacct,
    ?_, ?_, ?_, ?_, ?_, rfl, ?_, ?_⟩
  · simp [BankDatabase.heldOf, getD_ensureAccount, getD_mapInsert_self, hacct]
  · simp [BankDatabase.lockedOf, getD_ensureAccount, getD_mapInsert_self]
  · simp [BankDatabase.availableOf, getD_ensureAccount, getD_mapInsert_self, hacct]
  · simp
  · intro t ht
    simp [ht]
  · intro txs db2 hrun
    exact lockedOf_mono_run txs _ db2 dep.client hrun
      (hlocked _ (execute_chargeback_success db id tx dep acct htype hd hdep hacct))
  · intro txs db2 hrun id2 tx2 htype2 hclient2
    have hl2 : db2.lockedOf tx2.client = true := by
      rw [hclient2]
      exact lockedOf_mono_run txs _ db2 dep.client hrun
        (hlocked _ (execute_chargeback_success db id tx dep acct htype hd hdep hacct))
    exact withdrawal_locked_frame db2 id2 tx2 htype2 hl2

/-- C4 witness: charging back the open dispute of 50 for client 10: funds
leave held, the account locks, and for instance the empty rest-sequence
leaves the lock in place and then the withdrawal of 50 is rejected. -/
theorem c4_witness :
    ∃ db', dbDisputed.execute_transaction 1 txChargeback = some db' ∧
      db'.heldOf 10 = dbDisputed.heldOf 10 - 50 ∧
      db'.lockedOf 10 = true ∧
      db'.availableOf 10 = dbDisputed.availableOf 10 ∧
      db'.disputes 1 = false ∧
      (∀ t, t ≠ 1 → db'.disputes t = dbDisputed.disputes t) ∧
      db'.deposits = dbDisputed.deposits ∧
      (∀ txs db2, runTransactions db' txs = some db2 → db2.lockedOf 10 = true) ∧
      (∀ txs db2, runTransactions db' txs = some db2 →
        ∀ id2 tx2, tx2.type = .WITHDRAWAL → tx2.client = 10 →
          ∃ db3, db2.execute_transaction id2 tx2 = some db3 ∧ SameBalances db2 db3) :=
  c4_chargeback_locks dbDisputed 1 txChargeback ⟨10, 50⟩ ⟨0, 50, false⟩ rfl rfl rfl rfl

theorem accounts_some_after_insert (m : Nat → Option Account) (k x : Nat) (v : Account)
    (h : (∃ a, m x = some a) ∨ x = k) : ∃ b, mapInsert m k v x = some b := by
  by_cases hk : x = k
  · exact ⟨v, by simp [mapInsert, hk]⟩
  · rcases h with ⟨a, ha⟩ | h
    · exact ⟨a, by simp [mapInsert, hk, ha]⟩
    · exact absurd h hk

theorem accounts_some_after_ensure (m : Nat → Option Account) (c x : Nat)
    (h : (∃ a, m x = some a) ∨ x = c) : ∃ b, ensureAccount m c x = some b := by
  by_cases hc : x = c
  · exact ⟨(m c).getD Account.default, by simp [ensureAccount, hc]⟩
  · rcases h with ⟨a, ha⟩ | h
    · exact ⟨a, by simp [ensureAccount, hc, ha]⟩
    · exact absurd h hc

theorem wf_step (db : BankDatabase) (hwf : WellFormed db) (id : Nat) (tx : Transaction) :
    ∃ db', db.execute_transaction id tx = some db' ∧ WellFormed db' := by
  obtain ⟨hwf1, hwf2⟩ := hwf
  cases htype : tx.type with
  | DEPOSIT =>
    refine ⟨_, execute_deposit_eq db id tx htype, ?_, ?_⟩
    · intro t ht
      simp only at ht
      by_cases h : t = id
      · subst h
        exact ⟨⟨tx.client, tx.amount⟩, by simp [mapInsert]⟩
      · obtain ⟨r, hr⟩ := hwf1 t ht
        exact ⟨r, by simp [mapInsert, h, hr]⟩
    · intro t r hr
      simp only [mapInsert] at hr
      by_cases h : t = id
      · rw [if_pos h] at hr
        obtain rfl : (⟨tx.client, tx.amount⟩ : DepositRecord) = r :=
          Option.some.injEq _ _ |>.mp hr
        exact accounts_some_after_ensure _ _ _ (Or.inr rfl)
      · rw [if_neg h] at hr
        obtain ⟨a, ha⟩ := hwf2 t r hr
        exact accounts_some_after_ensure _ _ _
          (Or.inl (accounts_some_after_insert _ _ _ _ (Or.inl ⟨a, ha⟩)))
  | WITHDRAWAL =>
    by_cases hrej : ((db.accounts tx.client).getD Account.default).locked = true ∨
        ((db.accounts tx.client).getD Account.default).available_funds < tx.amount
    · refine ⟨_, execute_withdrawal_reject db id tx htype hrej, hwf1, ?_⟩
      intro t r hr
      obtain ⟨a, ha⟩ := hwf2 t r hr
      exact accounts_some_after_insert _ _ _ _ (Or.inl ⟨a, ha⟩)
    · push_neg at hrej
      obtain ⟨hlock, hav⟩ := hrej
      refine ⟨_, execute_withdrawal_success db id tx htype
        (Bool.not_eq_true _ |>.mp hlock) hav, hwf1, ?_⟩
      intro t r hr
      obtain ⟨a, ha⟩ := hwf2 t r hr
      exact accounts_some_after_ensure _ _ _
        (Or.inl (accounts_some_after_insert _ _ _ _
          (Or.inl (accounts_some_after_insert _ _ _ _ (Or.inl ⟨a, ha⟩)))))
  | DISPUTE =>
    cases hd : db.disputes id with
    | true => exact ⟨db, execute_dispute_dup db id tx htype hd, hwf1, hwf2⟩
    | false =>
      cases hdep : db.deposits id with
      | none =>
        refine ⟨_, execute_dispute_unknown db id tx htype hd hdep, hwf1, ?_⟩
        intro t r hr
        obtain ⟨a, ha⟩ := hwf2 t r hr
        exact accounts_some_after_ensure _ _ _ (Or.inl ⟨a, ha⟩)
      | some dep =>
        obtain ⟨acct, hacct⟩ := hwf2 id dep hdep
        refine ⟨_, execute_dispute_success db id tx dep acct htype hd hdep hacct, ?_, ?_⟩
        · intro t ht
          simp only at ht
          by_cases h : t = id
          · subst h
            exact ⟨dep, hdep⟩
          · rw [if_neg h] at ht
            exact hwf1 t ht
        · intro t r hr
          obtain ⟨a, ha⟩ := hwf2 t r hr
          exact accounts_some_after_ensure _ _ _
            (Or.inl (accounts_some_after_insert _ _ _ _ (Or.inl ⟨a, ha⟩)))
  | RESOLVE =>
    cases hd : db.disputes id with
    | false => exact ⟨db, execute_resolve_noop db id tx htype hd, hwf1, hwf2⟩
    | true =>
      obtain ⟨dep, hdep⟩ := hwf1 id hd
      obtain ⟨acct, hacct⟩ := hwf2 id dep hdep
      refine ⟨_, execute_resolve_success db id tx dep acct htype hd hdep hacct, ?_, ?_⟩
      · intro t ht
        simp only at ht
        by_cases h : t = id
        · rw [if_pos h] at ht
          exact absurd ht (by simp)
        · rw [if_neg h] at ht
          exact hwf1 t ht
      · intro t r hr
        obtain ⟨a, ha⟩ := hwf2 t r hr
        exact accounts_some_after_ensure _ _ _
          (Or.inl (accounts_some_after_insert _ _ _ _ (Or.inl ⟨a, ha⟩)))
  | CHARGEBACK =>
    cases hd : db.disputes id with
    | false => exact ⟨db, execute_chargeback_noop db id tx htype hd, hwf1, hwf2⟩
    | true =>
      obtain ⟨dep, hdep⟩ := hwf1 id hd
      obtain ⟨acct, hacct⟩ := hwf2 id dep hdep
      refine ⟨_, execute_chargeback_success db id tx dep acct htype hd hdep hacct, ?_, ?_⟩
      · intro t ht
        simp only at ht
        by_cases h : t = id
        · rw [if_pos h] at ht
          exact absurd ht (by simp)
        · rw [if_neg h] at ht
          exact hwf1 t ht
      · intro t r hr
        obtain ⟨a, ha⟩ := hwf2 t r hr
        exact accounts_some_after_ensure _ _ _
          (Or.inl (accounts_some_after_insert _ _ _ _ (Or.inl ⟨a, ha⟩)))

theorem wf_run (txs : List (Nat × Transaction)) :
    ∀ db, WellFormed db → ∃ db', runTransactions db txs = some db' ∧ WellFormed db' := by
  induction txs with
  | nil => exact fun db h => ⟨db, rfl, h⟩
  | cons t rest ih =>
    intro db h
    obtain ⟨db1, hstep, hwf1⟩ := wf_step db h t.1 t.2
    obtain ⟨db', hrun, hwf'⟩ := ih db1 hwf1
    exact ⟨db', by rw [runTransactions, hstep]; exact hrun, hwf'⟩

theorem wf_default : WellFormed BankDatabase.default :=
  ⟨fun t ht => absurd ht (by simp [BankDatabase.default]),
   fun t r hr => absurd hr (by simp [BankDatabase.default])⟩

/-- C10: every state reachable from the empty ledger is well-formed (every
disputed id has a deposit record; every deposit record's client has an
account), so the .expect lookups in the DISPUTE, RESOLVE and CHARGEBACK
branches cannot fail and execute_transaction never panics on a reachable
state: the whole run always produces a final state. -/
theorem c10_reachable_no_panic (txs : List (Nat × Transaction)) :
    ∃ db, runTransactions BankDatabase.default txs = some db ∧ WellFormed db ∧
      ∀ id tx, db.execute_transaction id tx ≠ none := by
  obtain ⟨db, hrun, hwf⟩ := wf_run txs BankDatabase.default wf_default
  refine ⟨db, hrun, hwf, ?_⟩
  intro id tx
  obtain ⟨db', hstep, _⟩ := wf_step db hwf id tx
  rw [hstep]
  simp

theorem getD_avail_nonneg (m : Nat → Option Account)
    (hav : ∀ c a, m c = some a → 0 ≤ a.available_funds) (c : Nat) :
    0 ≤ ((m c).getD Account.default).available_funds := by
  cases h : m c with
  | none => simp [Account.default]
  | some a => simpa using hav c a h

theorem no_dispute_inv_step (db : BankDatabase) (id : Nat) (tx : Transaction)
    (hty : tx.type ≠ .DISPUTE) (hamt : 0 ≤ tx.amount)
    (hdisp : ∀ t, db.disputes t = false)
    (hav : ∀ c a, db.accounts c = some a → 0 ≤ a.available_funds) :
    ∃ db', db.execute_transaction id tx = some db' ∧
      (∀ t, db'.disputes t = false) ∧
      (∀ c a, db'.accounts c = some a → 0 ≤ a.available_funds) := by
  cases htype : tx.type with
  | DISPUTE => exact absurd htype hty
  | DEPOSIT =>
    refine ⟨_, execute_deposit_eq db id tx htype, hdisp, ?_⟩
    intro c a hacc
    by_cases hc : c = tx.client
    · subst hc
      simp [ensureAccount, mapInsert] at hacc
      rw [← hacc]
      exact add_nonneg (getD_avail_nonneg db.accounts hav tx.client) hamt
    · simp only [ensureAccount, mapInsert, if_neg hc] at hacc
      exact hav c a hacc
  | WITHDRAWAL =>
    by_cases hrej : ((db.accounts tx.client).getD Account.default).locked = true ∨
        ((db.accounts tx.client).getD Account.default).available_funds < tx.amount
    · refine ⟨_, execute_withdrawal_reject db id tx htype hrej, hdisp, ?_⟩
      intro c a hacc
      by_cases hc : c = tx.client
      · subst hc
        simp [mapInsert] at hacc
        rw [← hacc]
        exact getD_avail_nonneg db.accounts hav tx.client
      · simp only [mapInsert, if_neg hc] at hacc
        exact hav c a hacc
    · push_neg at hrej
      obtain ⟨hlock, hav'⟩ := hrej
      refine ⟨_, execute_withdrawal_success db id tx htype
        (Bool.not_eq_true _ |>.mp hlock) hav', hdisp, ?_⟩
      intro c a hacc
      by_cases hc : c = tx.client
      · subst hc
        simp [ensureAccount, mapInsert] at hacc
        rw [← hacc]
        exact sub_nonneg.mpr hav'
      · simp only [ensureAccount, mapInsert, if_neg hc] at hacc
        exact hav c a hacc
  | RESOLVE =>
    exact ⟨db, execute_resolve_noop db id tx htype (hdisp id), hdisp, hav⟩
  | CHARGEBACK =>
    exact ⟨db, execute_chargeback_noop db id tx htype (hdisp id), hdisp, hav⟩

theorem no_dispute_inv_run (txs : List (Nat × Transaction))
    (hgood : ∀ p ∈ txs, 0 ≤ p.2.amount ∧ p.2.type ≠ .DISPUTE) :
    ∀ db, (∀ t, db.disputes t = false) →
      (∀ c a, db.accounts c = some a → 0 ≤ a.available_funds) →
      ∃ db', runTransactions db txs = some db' ∧
        (∀ t, db'.disputes t = false) ∧
        (∀ c a, db'.accounts c = some a → 0 ≤ a.available_funds) := by
  induction txs with
  | nil => exact fun db h1 h2 => ⟨db, rfl, h1, h2⟩
  | cons t rest ih =>
    intro db h1 h2
    obtain ⟨hamt, hty⟩ := hgood t (by simp)
    obtain ⟨db1, hstep, hd1, ha1⟩ := no_dispute_inv_step db t.1 t.2 hty hamt h1 h2
    obtain ⟨db', hrun, hd', ha'⟩ :=
      ih (fun p hp => hgood p (List.mem_cons_of_mem _ hp)) db1 hd1 ha1
    exact ⟨db', by rw [runTransactions, hstep]; exact hrun, hd', ha'⟩

/-- C5 counterexample: deposit 50 for client 10, withdraw all of it, then
dispute the deposit.  Every transaction carries a non-negative amount, yet
client 10's available funds end at -50: the engine does not enforce the
no-negative-available-funds invariant. -/
theorem c5_counterexample :
    (∀ p ∈ disputeAfterSpendList, 0 ≤ p.2.amount) ∧
    (runTransactions BankDatabase.default disputeAfterSpendList).map
      (fun db => (db.accounts 10).map Account.available_funds) = some (some (-50)) ∧
    ¬ ((0 : Int) ≤ -50) :=
  ⟨by decide, by decide, by decide⟩

/-- C5 (amended): the no-negative-available-funds invariant holds for every
state reachable from the empty ledger by a finite sequence of
non-negative-amount transactions that contains no DISPUTE (a dispute of an
already-spent deposit is exactly what drives the balance negative). -/
theorem c5_nonneg_available_amended (txs : List (Nat × Transaction))
    (hgood : ∀ p ∈ txs, 0 ≤ p.2.amount ∧ p.2.type ≠ .DISPUTE) :
    ∀ db, runTransactions BankDatabase.default txs = some db →
      ∀ c a, db.accounts c = some a → 0 ≤ a.available_funds := by
  intro db hrun c a hacc
  obtain ⟨db', hrun', _, ha'⟩ := no_dispute_inv_run txs hgood BankDatabase.default
    (fun _ => rfl) (fun c a h => absurd h (by simp [BankDatabase.default]))
  rw [hrun] at hrun'
  obtain rfl : db' = db := (Option.some.injEq _ _ |>.mp hrun').symm
  exact ha' c a hacc

/-- C5 witness: after a deposit of 50 and a withdrawal of 20 every account
holds non-negative available funds. -/
theorem c5_witness :
    (∀ p ∈ depositWithdrawList, 0 ≤ p.2.amount ∧ p.2.type ≠ .DISPUTE) ∧
    ∃ db, runTransactions BankDatabase.default depositWithdrawList = some db ∧
      ∀ c a, db.accounts c = some a → 0 ≤ a.available_funds := by
  refine ⟨by decide, ?_⟩
  obtain ⟨db, hdb⟩ : ∃ db,
      runTransactions BankDatabase.default depositWithdrawList = some db := ⟨_, rfl⟩
  exact ⟨db, hdb, c5_nonneg_available_amended depositWithdrawList (by decide) db hdb⟩

theorem deposits_deposit_step (db db' : BankDatabase) (id : Nat) (tx : Transaction)
    (htype : tx.type = .DEPOSIT) (hstep : db.execute_transaction id tx = some db') :
    db'.deposits = mapInsert db.deposits id ⟨tx.client, tx.amount⟩ := by
  rw [execute_deposit_eq db id tx htype] at hstep
  obtain rfl : _ = db' := Option.some.injEq _ _ |>.mp hstep
  rfl

theorem deposits_unchanged_non_deposit (db db' : BankDatabase) (id : Nat) (tx : Transaction)
    (hty : tx.type ≠ .DEPOSIT) (hstep : db.execute_transaction id tx = some db') :
    db'.deposits = db.deposits := by
  cases htype : tx.type with
  | DEPOSIT => exact absurd htype hty
  | WITHDRAWAL =>
    by_cases hrej : ((db.accounts tx.client).getD Account.default).locked = true ∨
        ((db.accounts tx.client).getD Account.default).available_funds < tx.amount
    · rw [execute_withdrawal_reject db id tx htype hrej] at hstep
      obtain rfl : _ = db' := Option.some.injEq _ _ |>.mp hstep
      rfl
    · push_neg at hrej
      rw [execute_withdrawal_success db id tx htype
        (Bool.not_eq_true _ |>.mp hrej.1) hrej.2] at hstep
      obtain rfl : _ = db' := Option.some.injEq _ _ |>.mp hstep
      rfl
  | DISPUTE =>
    cases hd : db.disputes id with
    | true =>
      rw [execute_dispute_dup db id tx htype hd] at hstep
      obtain rfl : db = db' := Option.some.injEq _ _ |>.mp hstep
      rfl
    | false =>
      cases hdep : db.deposits id with
      | none =>
        rw [execute_dispute_unknown db id tx htype hd hdep] at hstep
        obtain rfl : _ = db' := Option.some.injEq _ _ |>.mp hstep
        rfl
      | some dep =>
        cases hacct : db.accounts dep.client with
        | none =>
          rw [execute_dispute_panic db id tx dep htype hd hdep hacct] at hstep
          exact absurd hstep (by simp)
        | some acct =>
          rw [execute_dispute_success db id tx dep acct htype hd hdep hacct] at hstep
          obtain rfl : _ = db' := Option.some.injEq _ _ |>.mp hstep
          rfl
  | RESOLVE =>
    cases hd : db.disputes id with
    | false =>
      rw [execute_resolve_noop db id tx htype hd] at hstep
      obtain rfl : db = db' := Option.some.injEq _ _ |>.mp hstep
      rfl
    | true =>
      cases hdep : db.deposits id with
      | none =>
        rw [execute_resolve_panic_nodep db id tx htype hd hdep] at hstep
        exact absurd hstep (by simp)
      | some dep =>
        cases hacct : db.accounts dep.client with
        | none =>
          rw [execute_resolve_panic_noacct db id tx dep htype hd hdep hacct] at hstep
          exact absurd hstep (by simp)
        | some acct =>
          rw [execute_resolve_success db id tx dep acct htype hd hdep hacct] at hstep
          obtain rfl : _ = db' := Option.some.injEq _ _ |>.mp hstep
          rfl
  | CHARGEBACK =>
    cases hd : db.disputes id with
    | false =>
      rw [execute_chargeback_noop db id tx htype hd] at hstep
      obtain rfl : db = db' := Option.some.injEq _ _ |>.mp hstep
      rfl
    | true =>
      cases hdep : db.deposits id with
      | none =>
        rw [execute_chargeback_panic_nodep db id tx htype hd hdep] at hstep
        exact absurd hstep (by simp)
      | some dep =>
        cases hacct : db.accounts dep.client with
        | none =>
          rw [execute_chargeback_panic_noacct db id tx dep htype hd hdep hacct] at hstep
          exact absurd hstep (by simp)
        | some acct =>
          rw [execute_chargeback_success db id tx dep acct htype hd hdep hacct] at hstep
          obtain rfl : _ = db' := Option.some.injEq _ _ |>.mp hstep
          rfl

theorem deposits_step_cases (db db' : BankDatabase) (id : Nat) (tx : Transaction) (t : Nat)
    (hstep : db.execute_transaction id tx = some db') :
    (tx.type = .DEPOSIT ∧ id = t ∧ db'.deposits t = some ⟨tx.client, tx.amount⟩) ∨
    db'.deposits t = db.deposits t := by
  by_cases hty : tx.type = .DEPOSIT
  · have hd := deposits_deposit_step db db' id tx hty hstep
    by_cases hid : id = t
    · subst hid
      exact Or.inl ⟨hty, rfl, by rw [hd]; simp [mapInsert]⟩
    · refine Or.inr ?_
      rw [hd]
      simp only [mapInsert]
      rw [if_neg (fun h : t = id => hid h.symm)]
  · exact Or.inr (by rw [deposits_unchanged_non_deposit db db' id tx hty hstep])

theorem deposits_run (txs : List (Nat × Transaction)) :
    ∀ db db', runTransactions db txs = some db' →
      (∀ t r, db.deposits t = some r → ∃ r', db'.deposits t = some r') ∧
      (∀ t, (∀ p ∈ txs, ¬ (p.2.type = .DEPOSIT ∧ p.1 = t)) →
        db'.deposits t = db.deposits t) := by
  induction txs with
  | nil =>
    intro db db' hrun
    obtain rfl : db = db' := Option.some.injEq _ _ |>.mp hrun
    exact ⟨fun t r hr => ⟨r, hr⟩, fun t _ => rfl⟩
  | cons p rest ih =>
    intro db db' hrun
    rw [runTransactions] at hrun
    cases hstep : db.execute_transaction p.1 p.2 with
    | none => rw [hstep] at hrun; exact absurd hrun (by simp)
    | some db1 =>
      rw [hstep] at hrun
      obtain ⟨ih1, ih2⟩ := ih db1 db' hrun
      constructor
      · intro t r hr
        rcases deposits_step_cases db db1 p.1 p.2 t hstep with ⟨_, _, hnew⟩ | hsame
        · exact ih1 t _ hnew
        · exact ih1 t r (by rw [hsame]; exact hr)
      · intro t hno
        have hhead := hno p (by simp)
        have h1 : db1.deposits t = db.deposits t := by
          rcases deposits_step_cases db db1 p.1 p.2 t hstep with ⟨h1, h2, _⟩ | hsame
          · exact absurd ⟨h1, h2⟩ hhead
          · exact hsame
        rw [ih2 t (fun q hq => hno q (List.mem_cons_of_mem _ hq)), h1]

/-- C9 counterexample: two DEPOSITs sharing tx id 1: after the first the
record under id 1 is (client 10, amount 50); the second overwrites it with
(client 10, amount 100), so the record does not keep the values of the
first DEPOSIT applied with that id. -/
theorem c9_counterexample :
    (runTransactions BankDatabase.default (duplicateDepositList.take 1)).map
      (fun db => db.deposits 1) = some (some ⟨10, 50⟩) ∧
    (runTransactions BankDatabase.default duplicateDepositList).map
      (fun db => db.deposits 1) = some (some ⟨10, 100⟩) ∧
    (⟨10, 100⟩ : DepositRecord) ≠ ⟨10, 50⟩ :=
  ⟨by decide, by decide, by decide⟩

/-- C9 (amended): once a DEPOSIT with id t has been applied, the record
under t always exists and is never removed, and no non-DEPOSIT transaction
ever changes it; but a further DEPOSIT carrying the same id t overwrites
the record with its own client and amount (BTreeMap::insert replaces). -/
theorem c9_deposit_record_amended (db db' : BankDatabase) (id : Nat) (tx : Transaction)
    (t : Nat) (r : DepositRecord)
    (hstep : db.execute_transaction id tx = some db') (hrec : db.deposits t = some r) :
    (∃ r', db'.deposits t = some r') ∧
    (¬ (tx.type = .DEPOSIT ∧ id = t) → db'.deposits t = some r) ∧
    (tx.type = .DEPOSIT → id = t → db'.deposits t = some ⟨tx.client, tx.amount⟩) ∧
    (∀ txs db2, runTransactions db' txs = some db2 →
      (∃ r2, db2.deposits t = some r2) ∧
      ((∀ p ∈ txs, ¬ (p.2.type = .DEPOSIT ∧ p.1 = t)) →
        db2.deposits t = db'.deposits t)) := by
  have hcases := deposits_step_cases db db' id tx t hstep
  have hsome : ∃ r', db'.deposits t = some r' := by
    rcases hcases with ⟨_, _, hnew⟩ | hsame
    · exact ⟨_, hnew⟩
    · exact ⟨r, by rw [hsame]; exact hrec⟩
  refine ⟨hsome, ?_, ?_, ?_⟩
  · intro hnot
    rcases hcases with ⟨h1, h2, _⟩ | hsame
    · exact absurd ⟨h1, h2⟩ hnot
    · rw [hsame]
      exact hrec
  · intro hty hid
    subst hid
    rw [deposits_deposit_step db db' id tx hty hstep]
    simp [mapInsert]
  · intro txs db2 hrun
    obtain ⟨h1, h2⟩ := deposits_run txs db' db2 hrun
    obtain ⟨r', hr'⟩ := hsome
    exact ⟨h1 t r' hr', fun hno => h2 t hno⟩

/-- C9 witness: a RESOLVE step (not a DEPOSIT) leaves the record of the
deposit of 50 stored under id 1 untouched, and it persists through any
further sequence containing no DEPOSIT with id 1. -/
theorem c9_witness :
    dbDeposited.execute_transaction 2 txResolve = some dbDeposited ∧
    dbDeposited.deposits 1 = some ⟨10, 50⟩ ∧
    ((∃ r', dbDeposited.deposits 1 = some r') ∧
     (¬ (txResolve.type = .DEPOSIT ∧ 2 = 1) → dbDeposited.deposits 1 = some ⟨10, 50⟩) ∧
     (txResolve.type = .DEPOSIT → 2 = 1 →
       dbDeposited.deposits 1 = some ⟨txResolve.client, txResolve.amount⟩) ∧
     (∀ txs db2, runTransactions dbDeposited txs = some db2 →
       (∃ r2, db2.deposits 1 = some r2) ∧
       ((∀ p ∈ txs, ¬ (p.2.type = .DEPOSIT ∧ p.1 = 1)) →
         db2.deposits 1 = dbDeposited.deposits 1))) :=
  ⟨rfl, rfl, c9_deposit_record_amended dbDeposited dbDeposited 2 txResolve 1 ⟨10, 50⟩ rfl rfl⟩

/-- C10 witness: the dispute-after-spend run reaches a well-formed state on
which no transaction can make execute_transaction panic. -/
theorem c10_witness :
    ∃ db, runTransactions BankDatabase.default disputeAfterSpendList = some db ∧
      WellFormed db ∧ ∀ id tx, db.execute_transaction id tx ≠ none :=
  c10_reachable_no_panic disputeAfterSpendList
